import Mathlib

/-!
Shallow embedding of the dependency-injection container in `src/index.ts`
(`DIContainer`, `ConstructionError`) and proofs of the specified properties.

Modelling choices:
* Keys are opaque identities; we use `Nat` (JS `Map` keys compare by identity).
* A JS value is either `undefined`, an opaque primitive, or an object instance.
  JS reference identity of objects created by `new` is modelled by a serial
  number drawn from an allocation counter (`heapNext`); two `new` results are
  never identity-equal, which the serial numbers capture.
* The caller-supplied class table is a `World`: for each key, the optional
  static `dependencies` method (absent = `none`) and whether `new key(args)`
  throws for given arguments.  A successful `new key(args)` yields a fresh
  instance recording the key and the positional argument list.
* A provider registered with `provide` is a zero-argument function; it is
  modelled by its outcome: `Except.ok v` (returns `v`) or `Except.error e`
  (throws `e`).
* Thrown JS values are `JSError`; `ConstructionError(key, cause)` is the
  constructor `JSError.constructionError`.
* `construct` is total via a fuel parameter: `none` means the recursion did
  not terminate within the fuel bound (a dependency cycle); `some` is the
  actual outcome: the result (`Except.ok` return or `Except.error` throw),
  the container state after the call (side effects persist even on throw),
  and the trace of constructor / provider invocations performed.
-/

/-- Keys addressing container entries ; an opaque identity. -/
abbrev Key := Nat

/-- JS runtime values as far as the container observes them.  An object
created by `new key(args)` is identified by its heap serial number (JS
reference identity); the arguments it was built from are recorded in the
invocation trace, not in the value. -/
inductive Value where
  /-- the JS value `undefined` -/
  | undef : Value
  /-- an opaque non-object value (string, number, ...) -/
  | prim : Nat → Value
  /-- the object created by `new key(...)` with heap serial `serial` -/
  | inst : Key → Nat → Value
deriving DecidableEq, Repr

/-- Values that can be thrown. `constructionError key cause` models
`new ConstructionError(key, cause)` from `src/index.ts`. -/
inductive JSError where
  /-- an arbitrary thrown value, not a `ConstructionError` -/
  | raw : Nat → JSError
  /-- `ConstructionError` naming the key being constructed, with its cause -/
  | constructionError : Key → JSError → JSError
deriving DecidableEq, Repr

/-- Observable invocations of caller-supplied code during resolution. -/
inductive Event where
  /-- `new key(args)` was invoked; `ok` is false when the constructor threw -/
  | ctorInvoked : Key → List Value → Bool → Event
  /-- the provider registered for `key` was invoked -/
  | providerInvoked : Key → Event
deriving DecidableEq, Repr

deriving instance DecidableEq for Except

/-- Lookup in an association list, modelling `Map.has` / `Map.get`:
`some v` when the map has an entry (`has` true, `get` returns `v`),
`none` when it does not. -/
def mapGet {α : Type} : List (Key × α) → Key → Option α
  | [], _ => none
  | (k, v) :: rest, q => if k = q then some v else mapGet rest q

/-- Update in an association list, modelling `Map.set`: overwrite the entry
for `k` when present, append it otherwise. -/
def mapSet {α : Type} : List (Key × α) → Key → α → List (Key × α)
  | [], k, v => [(k, v)]
  | (k', v') :: rest, k, v =>
    if k' = k then (k, v) :: rest else (k', v') :: mapSet rest k v

/-- State of a `DIContainer`: the two private `Map`s of `src/index.ts`, plus
`heapNext`, the allocation counter modelling JS heap identity of the objects
produced by `new` (not a field of the source class; it stands for the heap). -/
structure DIContainer where
  instances : List (Key × Value)
  providers : List (Key × Except JSError Value)
  heapNext : Nat
deriving DecidableEq, Repr

/-- A freshly created container (`new DIContainer()`): both maps empty.
`h` is the current allocation counter of the surrounding heap. -/
def DIContainer.empty (h : Nat) : DIContainer := ⟨[], [], h⟩

/-- Method `add`: register an instance under a key (overwriting), returning
the container (the source returns `this` for chaining). -/
def DIContainer.add (c : DIContainer) (key : Key) (value : Value) : DIContainer :=
  { c with instances := mapSet c.instances key value }

/-- Method `provide`: register a provider under a key (overwriting). -/
def DIContainer.provide (c : DIContainer) (key : Key)
    (value : Except JSError Value) : DIContainer :=
  { c with providers := mapSet c.providers key value }

/-- The caller-supplied class table: for each key, its optional static
`dependencies` method and whether `new key(args)` throws. -/
structure World where
  dependencies : Key → Option (List Key)
  ctorThrows : Key → List Value → Option JSError

/-- Outcome of one `construct` call: result (return value or thrown error),
container state afterwards, and trace of invocations. -/
abbrev CRes := Except JSError Value × DIContainer × List Event

/-- Shared tail of `constructViaDependencies`: `new object(...dependencies)`
followed by `this.add(object, instance); return instance`.  A throwing
constructor leaves the container unchanged; a successful one allocates a
fresh instance and registers it. -/
def newInstance (w : World) (c : DIContainer) (key : Key)
    (vs : List Value) (evs : List Event) : CRes :=
  match w.ctorThrows key vs with
  | some e => (.error e, c, evs ++ [.ctorInvoked key vs false])
  | none =>
    let v := Value.inst key c.heapNext
    (.ok v, ({ c with heapNext := c.heapNext + 1 }).add key v,
      evs ++ [.ctorInvoked key vs true])

/-- The `map` in `object.dependencies().map((x) => this.construct(x))`:
resolve the keys left to right, threading the container state; a thrown
error aborts the remaining resolutions but keeps earlier side effects.
`f` is the recursive `construct` call. -/
def mapConstruct (f : DIContainer → Key → Option CRes) :
    DIContainer → List Key → Option (Except JSError (List Value) × DIContainer × List Event)
  | c, [] => some (.ok [], c, [])
  | c, k :: ks =>
    match f c k with
    | none => none
    | some (.error e, c', evs) => some (.error e, c', evs)
    | some (.ok v, c', evs) =>
      match mapConstruct f c' ks with
      | none => none
      | some (.error e, c'', evs') => some (.error e, c'', evs ++ evs')
      | some (.ok vs, c'', evs') => some (.ok (v :: vs), c'', evs ++ evs')

/-- Method `constructViaProvider`: invoke the provider found for `key` (the
caller established `providers.has(key)` and passes the stored provider),
register its result with `add`, and return it; a throwing provider leaves
the container unchanged. -/
def DIContainer.constructViaProvider (c : DIContainer) (key : Key)
    (p : Except JSError Value) : CRes :=
  match p with
  | .error e => (.error e, c, [.providerInvoked key])
  | .ok v => (.ok v, c.add key v, [.providerInvoked key])

/-- Method `constructViaDependencies`: resolve the declared dependencies
(`[]` when the static method is absent) via the recursive `construct` call
`recur`, then `new object(...dependencies)` and register the instance. -/
def constructViaDependencies (w : World) (recur : DIContainer → Key → Option CRes)
    (c : DIContainer) (key : Key) : Option CRes :=
  match w.dependencies key with
  | none => some (newInstance w c key [] [])
  | some ds =>
    match mapConstruct recur c ds with
    | none => none
    | some (.error e, c', evs) => some (.error e, c', evs)
    | some (.ok vs, c', evs) => some (newInstance w c' key vs evs)

/-- Body of the `try` block of `construct`: instance cache first, then the
provider registry, then default construction. -/
def constructBody (w : World) (recur : DIContainer → Key → Option CRes)
    (c : DIContainer) (key : Key) : Option CRes :=
  match mapGet c.instances key with
  | some v => some (.ok v, c, [])
  | none =>
    match mapGet c.providers key with
    | some p => some (c.constructViaProvider key p)
    | none => constructViaDependencies w recur c key

/-- Method `construct`: run the body; any throw is caught and re-thrown as
`new ConstructionError(object, e)`.  The first argument after `w` is fuel:
`none` means the recursion exceeded it (only possible on a cyclic graph). -/
def construct (w : World) : Nat → DIContainer → Key → Option CRes
  | 0, _, _ => none
  | fuel + 1, c, key =>
    match constructBody w (construct w fuel) c key with
    | none => none
    | some (.ok v, c', evs) => some (.ok v, c', evs)
    | some (.error e, c', evs) => some (.error (.constructionError key e), c', evs)

/-- Repeatedly call `construct` for the same key on the same container,
`n` times, collecting the traces (each call gets fuel `fuel`). -/
def constructN (w : World) (fuel : Nat) (c : DIContainer) (key : Key) :
    Nat → Option (DIContainer × List Event)
  | 0 => some (c, [])
  | n + 1 =>
    match construct w fuel c key with
    | none => none
    | some (_, c', evs) =>
      match constructN w fuel c' key n with
      | none => none
      | some (c'', evs') => some (c'', evs ++ evs')

/-- One operation of a container lifetime: an `add`, a `provide`, or a
`construct` call (whose result, returned or thrown, the caller may ignore). -/
inductive Op where
  | addOp : Key → Value → Op
  | provideOp : Key → Except JSError Value → Op
  | constructOp : Nat → Key → Op

/-- Run a sequence of operations on a container, collecting every trace.
A construct call that throws still contributes its side effects and trace. -/
def runOps (w : World) : DIContainer → List Op → Option (DIContainer × List Event)
  | c, [] => some (c, [])
  | c, .addOp k v :: ops => runOps w (c.add k v) ops
  | c, .provideOp k p :: ops => runOps w (c.provide k p) ops
  | c, .constructOp fuel k :: ops =>
    match construct w fuel c k with
    | none => none
    | some (_, c', evs) =>
      match runOps w c' ops with
      | none => none
      | some (c'', evs') => some (c'', evs ++ evs')

/-- Number of successful default constructions of `q` in a trace. -/
def ctorSuccessCount (q : Key) : List Event → Nat
  | [] => 0
  | .ctorInvoked k _ true :: evs =>
    (if k = q then 1 else 0) + ctorSuccessCount q evs
  | _ :: evs => ctorSuccessCount q evs

/-- Number of provider invocations for `q` in a trace. -/
def providerCount (q : Key) : List Event → Nat
  | [] => 0
  | .providerInvoked k :: evs =>
    (if k = q then 1 else 0) + providerCount q evs
  | _ :: evs => providerCount q evs

/-- Whether the instance cache has an entry for `q` (as 0 or 1). -/
def cachedInd (c : DIContainer) (q : Key) : Nat :=
  if (mapGet c.instances q).isSome then 1 else 0

/-- Declared dependency list of a key: the result of the static
`dependencies` method, `[]` when the method is absent. -/
def depsList (w : World) (k : Key) : List Key := (w.dependencies k).getD []

/-- A pending chain: the stack of suspended default constructions,
outermost first; each element declares the next as a dependency, and the
last declares `q` (the key currently being constructed). -/
def chainTo (w : World) : List Key → Key → Prop
  | [], _ => True
  | [p], q => q ∈ depsList w p
  | p :: p' :: ps, q => p' ∈ depsList w p ∧ chainTo w (p' :: ps) q

/-- The `x` argument of `ConstructionError` as the message computation
observes it: `null`, `undefined`, a value whose `name` property is defined
(modelled by the string that name coerces to), a plain object without one
(modelled by its `toString()` result), or a symbol (no `name` property;
its `toString()` is `Symbol(description)`). -/
inductive ErrKey where
  | jsnull : ErrKey
  | jsundefined : ErrKey
  | withName : String → ErrKey
  | noName : String → ErrKey
  | symbol : String → ErrKey
deriving DecidableEq, Repr

/-- A JS value as it appears on the right of the `+` in the message of
`ConstructionError`: `null`, `undefined`, or a string. -/
inductive RefVal where
  | rnull : RefVal
  | rundefined : RefVal
  | rstr : String → RefVal
deriving DecidableEq, Repr

/-- The `reference` conditional of the `ConstructionError` constructor:
`x === null || x === undefined ? x : x.name !== undefined ? x.name :
x.toString()`. -/
def referenceOf : ErrKey → RefVal
  | .jsnull => .rnull
  | .jsundefined => .rundefined
  | .withName n => .rstr n
  | .noName s => .rstr s
  | .symbol d => .rstr ("Symbol(" ++ d ++ ")")

/-- String coercion performed by `+` in `'Error constructing ' + reference`. -/
def coerceString : RefVal → String
  | .rnull => "null"
  | .rundefined => "undefined"
  | .rstr s => s

/-- The message built by the `ConstructionError` constructor. -/
def constructionMessage (x : ErrKey) : String :=
  "Error constructing " ++ coerceString (referenceOf x)

/-- Example world with a failing dependency chain: key 1 depends on key 2,
key 2 depends on key 3, and the constructor of key 3 throws `raw 7`. -/
def chainWorld : World where
  dependencies := fun k => if k = 1 then some [2] else if k = 2 then some [3] else none
  ctorThrows := fun k _ => if k = 3 then some (.raw 7) else none

/-- Example world with a diamond: key 2 depends on keys 0 and 1, key 1
depends on key 0 again, nothing throws. -/
def diamondWorld : World where
  dependencies := fun k => if k = 2 then some [0, 1] else if k = 1 then some [0] else none
  ctorThrows := fun _ _ => none

/-- Example world where no key declares dependencies and no constructor
throws. -/
def plainWorld : World where
  dependencies := fun _ => none
  ctorThrows := fun _ _ => none

/-- Example world where resolution fails after a dependency succeeded: key 1
depends on keys 2 and 3; key 2 constructs fine, the constructor of key 3
throws. -/
def partialWorld : World where
  dependencies := fun k => if k = 1 then some [2, 3] else none
  ctorThrows := fun k _ => if k = 3 then some (.raw 9) else none

/-! Basic association-list lemmas. -/

theorem mapGet_mapSet_self {α : Type} (m : List (Key × α)) (k : Key) (v : α) :
    mapGet (mapSet m k v) k = some v := by
  induction m with
  | nil => simp [mapGet, mapSet]
  | cons kv rest ih =>
    obtain ⟨k1, v1⟩ := kv
    by_cases h : k1 = k
    · subst h; simp [mapGet, mapSet]
    · simp [mapGet, mapSet, h, ih]

theorem mapGet_mapSet_ne {α : Type} (m : List (Key × α)) (k q : Key) (v : α)
    (h : q ≠ k) : mapGet (mapSet m k v) q = mapGet m q := by
  induction m with
  | nil => simp [mapGet, mapSet, Ne.symm h]
  | cons kv rest ih =>
    obtain ⟨k1, v1⟩ := kv
    by_cases h1 : k1 = k
    · subst h1
      simp [mapGet, mapSet, Ne.symm h]
    · by_cases h2 : k1 = q
      · subst h2
        simp [mapGet, mapSet, h1]
      · simp [mapGet, mapSet, h1, h2, ih]

theorem mapGet_mapSet_isSome {α : Type} (m : List (Key × α)) (k q : Key) (v : α)
    (h : (mapGet m q).isSome) : (mapGet (mapSet m k v) q).isSome := by
  by_cases hq : q = k
  · subst hq; simp [mapGet_mapSet_self]
  · rwa [mapGet_mapSet_ne m k q v hq]

/-! Elimination lemmas exposing the case structure of the resolution
functions; every later induction is driven by these. -/

theorem newInstance_throw {w : World} {c : DIContainer} {key : Key} {vs : List Value}
    {evs : List Event} {e : JSError} (h : w.ctorThrows key vs = some e) :
    newInstance w c key vs evs = (.error e, c, evs ++ [.ctorInvoked key vs false]) := by
  simp [newInstance, h]

theorem newInstance_ok {w : World} {c : DIContainer} {key : Key} {vs : List Value}
    {evs : List Event} (h : w.ctorThrows key vs = none) :
    newInstance w c key vs evs =
      (.ok (Value.inst key c.heapNext),
        ({ c with heapNext := c.heapNext + 1 }).add key (Value.inst key c.heapNext),
        evs ++ [.ctorInvoked key vs true]) := by
  simp [newInstance, h]

theorem mapConstruct_nil (f : DIContainer → Key → Option CRes) (c : DIContainer) :
    mapConstruct f c [] = some (.ok [], c, []) := rfl

theorem mapConstruct_cons_elim {f : DIContainer → Key → Option CRes}
    {c : DIContainer} {k : Key} {ks : List Key}
    {out : Except JSError (List Value) × DIContainer × List Event}
    (h : mapConstruct f c (k :: ks) = some out) :
    (∃ e c1 evs1, f c k = some (.error e, c1, evs1) ∧ out = (.error e, c1, evs1)) ∨
    (∃ v c1 evs1 e c2 evs2, f c k = some (.ok v, c1, evs1) ∧
      mapConstruct f c1 ks = some (.error e, c2, evs2) ∧
      out = (.error e, c2, evs1 ++ evs2)) ∨
    (∃ v c1 evs1 vs c2 evs2, f c k = some (.ok v, c1, evs1) ∧
      mapConstruct f c1 ks = some (.ok vs, c2, evs2) ∧
      out = (.ok (v :: vs), c2, evs1 ++ evs2)) := by
  simp only [mapConstruct] at h
  split at h
  · exact Option.noConfusion h
  · rename_i e c1 evs1 hf
    simp only [Option.some.injEq] at h
    exact Or.inl ⟨e, c1, evs1, hf, h.symm⟩
  · rename_i v c1 evs1 hf
    split at h
    · exact Option.noConfusion h
    · rename_i e c2 evs2 hmc
      simp only [Option.some.injEq] at h
      exact Or.inr (Or.inl ⟨v, c1, evs1, e, c2, evs2, hf, hmc, h.symm⟩)
    · rename_i vs c2 evs2 hmc
      simp only [Option.some.injEq] at h
      exact Or.inr (Or.inr ⟨v, c1, evs1, vs, c2, evs2, hf, hmc, h.symm⟩)

theorem constructViaDependencies_elim {w : World}
    {recur : DIContainer → Key → Option CRes} {c : DIContainer} {key : Key}
    {out : CRes} (h : constructViaDependencies w recur c key = some out) :
    (w.dependencies key = none ∧ out = newInstance w c key [] []) ∨
    (∃ ds e c1 evs, w.dependencies key = some ds ∧
      mapConstruct recur c ds = some (.error e, c1, evs) ∧ out = (.error e, c1, evs)) ∨
    (∃ ds vs c1 evs, w.dependencies key = some ds ∧
      mapConstruct recur c ds = some (.ok vs, c1, evs) ∧
      out = newInstance w c1 key vs evs) := by
  simp only [constructViaDependencies] at h
  split at h
  · rename_i hd
    simp only [Option.some.injEq] at h
    exact Or.inl ⟨hd, h.symm⟩
  · rename_i ds hd
    split at h
    · exact Option.noConfusion h
    · rename_i e c1 evs hmc
      simp only [Option.some.injEq] at h
      exact Or.inr (Or.inl ⟨ds, e, c1, evs, hd, hmc, h.symm⟩)
    · rename_i vs c1 evs hmc
      simp only [Option.some.injEq] at h
      exact Or.inr (Or.inr ⟨ds, vs, c1, evs, hd, hmc, h.symm⟩)

theorem constructBody_elim {w : World} {recur : DIContainer → Key → Option CRes}
    {c : DIContainer} {key : Key} {out : CRes}
    (h : constructBody w recur c key = some out) :
    (∃ v, mapGet c.instances key = some v ∧ out = (.ok v, c, [])) ∨
    (mapGet c.instances key = none ∧
      ∃ p, mapGet c.providers key = some p ∧ out = c.constructViaProvider key p) ∨
    (mapGet c.instances key = none ∧ mapGet c.providers key = none ∧
      constructViaDependencies w recur c key = some out) := by
  simp only [constructBody] at h
  split at h
  · rename_i v hi
    simp only [Option.some.injEq] at h
    exact Or.inl ⟨v, hi, h.symm⟩
  · rename_i hi
    split at h
    · rename_i p hp
      simp only [Option.some.injEq] at h
      exact Or.inr (Or.inl ⟨hi, p, hp, h.symm⟩)
    · rename_i hp
      exact Or.inr (Or.inr ⟨hi, hp, h⟩)

theorem construct_succ_elim {w : World} {fuel : Nat} {c : DIContainer} {key : Key}
    {out : CRes} (h : construct w (fuel + 1) c key = some out) :
    (∃ v c1 evs, constructBody w (construct w fuel) c key = some (.ok v, c1, evs) ∧
      out = (.ok v, c1, evs)) ∨
    (∃ e c1 evs, constructBody w (construct w fuel) c key = some (.error e, c1, evs) ∧
      out = (.error (.constructionError key e), c1, evs)) := by
  simp only [construct] at h
  split at h
  · exact Option.noConfusion h
  · rename_i v c1 evs hb
    simp only [Option.some.injEq] at h
    exact Or.inl ⟨v, c1, evs, hb, h.symm⟩
  · rename_i e c1 evs hb
    simp only [Option.some.injEq] at h
    exact Or.inr ⟨e, c1, evs, hb, h.symm⟩

theorem construct_cached {w : World} {fuel : Nat} {c : DIContainer} {k : Key}
    {v : Value} (h : mapGet c.instances k = some v) :
    construct w (fuel + 1) c k = some (.ok v, c, []) := by
  simp [construct, constructBody, h]

theorem triple_eq {α β γ : Type} {a a2 : α} {b b2 : β} {g g2 : γ}
    (h : (a, b, g) = (a2, b2, g2)) : a = a2 ∧ b = b2 ∧ g = g2 := by
  simp only [Prod.mk.injEq] at h
  exact h

theorem depsList_none {w : World} {key : Key} (h : w.dependencies key = none) :
    depsList w key = [] := by
  simp [depsList, h]

theorem depsList_some {w : World} {key : Key} {ds : List Key}
    (h : w.dependencies key = some ds) : depsList w key = ds := by
  simp [depsList, h]

/-- Full case analysis of one successful step of `construct`: the cache hit,
the two provider outcomes, and the three outcomes of default construction
(a dependency threw, the constructor threw, or construction succeeded).
An absent `dependencies` method is folded into `depsList` being `[]`. -/
theorem construct_succ_cases {w : World} {fuel : Nat} {c : DIContainer} {key : Key}
    {r : Except JSError Value} {c1 : DIContainer} {evs : List Event}
    (h : construct w (fuel + 1) c key = some (r, c1, evs)) :
    (∃ v, mapGet c.instances key = some v ∧ r = .ok v ∧ c1 = c ∧ evs = []) ∨
    (mapGet c.instances key = none ∧ ∃ v, mapGet c.providers key = some (.ok v) ∧
      r = .ok v ∧ c1 = c.add key v ∧ evs = [.providerInvoked key]) ∨
    (mapGet c.instances key = none ∧ ∃ e, mapGet c.providers key = some (.error e) ∧
      r = .error (.constructionError key e) ∧ c1 = c ∧ evs = [.providerInvoked key]) ∨
    (mapGet c.instances key = none ∧ mapGet c.providers key = none ∧
      ((∃ e cm evsm,
          mapConstruct (construct w fuel) c (depsList w key) = some (.error e, cm, evsm) ∧
          r = .error (.constructionError key e) ∧ c1 = cm ∧ evs = evsm) ∨
       (∃ vs cm evsm e,
          mapConstruct (construct w fuel) c (depsList w key) = some (.ok vs, cm, evsm) ∧
          w.ctorThrows key vs = some e ∧ r = .error (.constructionError key e) ∧
          c1 = cm ∧ evs = evsm ++ [.ctorInvoked key vs false]) ∨
       (∃ vs cm evsm,
          mapConstruct (construct w fuel) c (depsList w key) = some (.ok vs, cm, evsm) ∧
          w.ctorThrows key vs = none ∧ r = .ok (Value.inst key cm.heapNext) ∧
          c1 = ({ cm with heapNext := cm.heapNext + 1 }).add key (Value.inst key cm.heapNext) ∧
          evs = evsm ++ [.ctorInvoked key vs true]))) := by
  rcases construct_succ_elim h with ⟨v, c2, evs2, hb, hout⟩ | ⟨e0, c2, evs2, hb, hout⟩
  · -- the body returned normally
    obtain ⟨hr, hc, he⟩ := triple_eq hout
    rcases constructBody_elim hb with ⟨v2, hi, hout2⟩ | ⟨hi, p, hp, hout2⟩ | ⟨hi, hp, hd⟩
    · obtain ⟨hv, hcc, hee⟩ := triple_eq hout2
      exact Or.inl ⟨v2, hi, hr.trans hv, hc.trans hcc, he.trans hee⟩
    · cases p with
      | ok v3 =>
        simp only [DIContainer.constructViaProvider] at hout2
        obtain ⟨hv, hcc, hee⟩ := triple_eq hout2
        exact Or.inr (Or.inl ⟨hi, v3, hp, hr.trans hv, hc.trans hcc, he.trans hee⟩)
      | error e =>
        simp only [DIContainer.constructViaProvider] at hout2
        exact absurd (triple_eq hout2).1 (by simp)
    · rcases constructViaDependencies_elim hd
        with ⟨hdep, hout3⟩ | ⟨ds, e, cm, evsm, hdep, hmc, hout3⟩
           | ⟨ds, vs, cm, evsm, hdep, hmc, hout3⟩
      · cases hct : w.ctorThrows key [] with
        | some e =>
          rw [newInstance_throw hct] at hout3
          exact absurd (triple_eq hout3).1 (by simp)
        | none =>
          rw [newInstance_ok hct] at hout3
          obtain ⟨hv, hcc, hee⟩ := triple_eq hout3
          refine Or.inr (Or.inr (Or.inr ⟨hi, hp, Or.inr (Or.inr
            ⟨[], c, [], ?_, hct, hr.trans hv, hc.trans hcc, he.trans hee⟩)⟩))
          rw [depsList_none hdep]
          exact mapConstruct_nil _ _
      · exact absurd (triple_eq hout3).1 (by simp)
      · cases hct : w.ctorThrows key vs with
        | some e =>
          rw [newInstance_throw hct] at hout3
          exact absurd (triple_eq hout3).1 (by simp)
        | none =>
          rw [newInstance_ok hct] at hout3
          obtain ⟨hv, hcc, hee⟩ := triple_eq hout3
          refine Or.inr (Or.inr (Or.inr ⟨hi, hp, Or.inr (Or.inr
            ⟨vs, cm, evsm, ?_, hct, hr.trans hv, hc.trans hcc, he.trans hee⟩)⟩))
          rw [depsList_some hdep]
          exact hmc
  · -- the body threw; construct wrapped the error
    obtain ⟨hr, hc, he⟩ := triple_eq hout
    rcases constructBody_elim hb with ⟨v2, hi, hout2⟩ | ⟨hi, p, hp, hout2⟩ | ⟨hi, hp, hd⟩
    · exact absurd (triple_eq hout2).1 (by simp)
    · cases p with
      | ok v3 =>
        simp only [DIContainer.constructViaProvider] at hout2
        exact absurd (triple_eq hout2).1 (by simp)
      | error e =>
        simp only [DIContainer.constructViaProvider] at hout2
        obtain ⟨hv, hcc, hee⟩ := triple_eq hout2
        injection hv with hv0
        exact Or.inr (Or.inr (Or.inl
          ⟨hi, e, hp, hv0 ▸ hr, hc.trans hcc, he.trans hee⟩))
    · rcases constructViaDependencies_elim hd
        with ⟨hdep, hout3⟩ | ⟨ds, e, cm, evsm, hdep, hmc, hout3⟩
           | ⟨ds, vs, cm, evsm, hdep, hmc, hout3⟩
      · cases hct : w.ctorThrows key [] with
        | some e =>
          rw [newInstance_throw hct] at hout3
          obtain ⟨hv, hcc, hee⟩ := triple_eq hout3
          injection hv with hv0
          refine Or.inr (Or.inr (Or.inr ⟨hi, hp, Or.inr (Or.inl
            ⟨[], c, [], e, ?_, hct, hv0 ▸ hr, hc.trans hcc, he.trans hee⟩)⟩))
          rw [depsList_none hdep]
          exact mapConstruct_nil _ _
        | none =>
          rw [newInstance_ok hct] at hout3
          exact absurd (triple_eq hout3).1 (by simp)
      · obtain ⟨hv, hcc, hee⟩ := triple_eq hout3
        injection hv with hv0
        refine Or.inr (Or.inr (Or.inr ⟨hi, hp, Or.inl
          ⟨e, cm, evsm, ?_, hv0 ▸ hr, hc.trans hcc, he.trans hee⟩⟩))
        rw [depsList_some hdep]
        exact hmc
      · cases hct : w.ctorThrows key vs with
        | some e =>
          rw [newInstance_throw hct] at hout3
          obtain ⟨hv, hcc, hee⟩ := triple_eq hout3
          injection hv with hv0
          refine Or.inr (Or.inr (Or.inr ⟨hi, hp, Or.inr (Or.inl
            ⟨vs, cm, evsm, e, ?_, hct, hv0 ▸ hr, hc.trans hcc, he.trans hee⟩)⟩))
          rw [depsList_some hdep]
          exact hmc
        | none =>
          rw [newInstance_ok hct] at hout3
          exact absurd (triple_eq hout3).1 (by simp)

/-! Generic preservation of a transitive state relation along resolution. -/

theorem mapConstruct_pres {f : DIContainer → Key → Option CRes}
    {P : DIContainer → DIContainer → Prop}
    (Ptrans : ∀ {a b g : DIContainer}, P a b → P b g → P a g)
    (Prefl : ∀ a : DIContainer, P a a)
    (H : ∀ cc k out, f cc k = some out → P cc out.2.1) :
    ∀ {ds cc out}, mapConstruct f cc ds = some out → P cc out.2.1 := by
  intro ds
  induction ds with
  | nil =>
    intro cc out h
    rw [mapConstruct_nil] at h
    have h2 := Option.some.inj h
    subst h2
    exact Prefl cc
  | cons k ks ih =>
    intro cc out h
    rcases mapConstruct_cons_elim h with
      ⟨e, ca, evsa, hf, hout⟩ | ⟨v, ca, evsa, e, cb, evsb, hf, hmc, hout⟩
        | ⟨v, ca, evsa, vs, cb, evsb, hf, hmc, hout⟩
    · subst hout; exact H _ _ _ hf
    · have h1 := H _ _ _ hf
      have h2 := ih hmc
      subst hout
      exact Ptrans h1 h2
    · have h1 := H _ _ _ hf
      have h2 := ih hmc
      subst hout
      exact Ptrans h1 h2

theorem construct_pres {w : World} {P : DIContainer → DIContainer → Prop}
    (Ptrans : ∀ {a b g : DIContainer}, P a b → P b g → P a g)
    (Prefl : ∀ a : DIContainer, P a a)
    (Padd : ∀ (cc : DIContainer) (k : Key) (v : Value), P cc (cc.add k v))
    (Pnew : ∀ (cc : DIContainer) (k : Key) (v : Value),
      P cc (({ cc with heapNext := cc.heapNext + 1 }).add k v)) :
    ∀ fuel {cc k out}, construct w fuel cc k = some out → P cc out.2.1 := by
  intro fuel
  induction fuel with
  | zero => intro cc k out h; exact Option.noConfusion h
  | succ fuel ih =>
    intro cc k out h
    obtain ⟨r, c1, evs⟩ := out
    rcases construct_succ_cases h with
      ⟨v, hi, hr, hc1, hevs⟩ | ⟨hi, v, hp, hr, hc1, hevs⟩ | ⟨hi, e, hp, hr, hc1, hevs⟩ |
      ⟨hi, hp, hsub⟩
    · subst hc1; exact Prefl _
    · subst hc1; exact Padd _ k v
    · subst hc1; exact Prefl _
    · have HH : ∀ (a : DIContainer) (b : Key) (o : CRes),
          construct w fuel a b = some o → P a o.2.1 := fun _ _ _ hh => ih hh
      rcases hsub with ⟨e, cm, evsm, hmc, hr, hc1, hevs⟩ |
        ⟨vs, cm, evsm, e, hmc, hct, hr, hc1, hevs⟩ | ⟨vs, cm, evsm, hmc, hct, hr, hc1, hevs⟩
      · subst hc1
        exact mapConstruct_pres (P := P) Ptrans Prefl HH hmc
      · subst hc1
        exact mapConstruct_pres (P := P) Ptrans Prefl HH hmc
      · subst hc1
        have h1 := mapConstruct_pres (P := P) Ptrans Prefl HH hmc
        exact Ptrans h1 (Pnew cm k _)

/-- A `construct` call never changes the provider registry. -/
theorem construct_providers_eq {w : World} {fuel : Nat} {cc : DIContainer} {k : Key}
    {out : CRes} (h : construct w fuel cc k = some out) :
    out.2.1.providers = cc.providers :=
  construct_pres (P := fun a b => b.providers = a.providers)
    (fun h1 h2 => h2.trans h1) (fun _ => rfl) (fun _ _ _ => rfl) (fun _ _ _ => rfl)
    fuel h

/-- A `construct` call never removes instance-cache entries. -/
theorem construct_cache_mono {w : World} {fuel : Nat} {cc : DIContainer} {k : Key}
    {out : CRes} (h : construct w fuel cc k = some out) :
    ∀ q, (mapGet cc.instances q).isSome → (mapGet out.2.1.instances q).isSome :=
  construct_pres
    (P := fun a b => ∀ q, (mapGet a.instances q).isSome → (mapGet b.instances q).isSome)
    (fun h1 h2 q hq => h2 q (h1 q hq)) (fun _ _ hq => hq)
    (fun _ k v q hq => mapGet_mapSet_isSome _ k q v hq)
    (fun _ k v q hq => mapGet_mapSet_isSome _ k q v hq)
    fuel h

/-! Lemmas about pending chains. -/

theorem chainTo_snoc {w : World} :
    ∀ {P : List Key} {q d : Key}, chainTo w P q → d ∈ depsList w q →
      chainTo w (P ++ [q]) d := by
  intro P
  induction P with
  | nil =>
    intro q d hch hd
    simpa [chainTo] using hd
  | cons p ps ih =>
    intro q d hch hd
    cases ps with
    | nil => exact ⟨hch, hd⟩
    | cons p2 ps2 =>
      obtain ⟨h1, h2⟩ := hch
      exact ⟨h1, ih h2 hd⟩

theorem chainTo_self_mem {w : World} :
    ∀ {P : List Key} {q : Key}, chainTo w P q → q ∈ P →
      ∃ d, d ∈ depsList w q ∧ d ∈ P ++ [q] := by
  intro P
  induction P with
  | nil => intro q hch hq; exact absurd hq (List.not_mem_nil q)
  | cons p ps ih =>
    intro q hch hq
    cases ps with
    | nil =>
      have hqp : q = p := by simpa using hq
      subst hqp
      exact ⟨q, hch, by simp⟩
    | cons p2 ps2 =>
      obtain ⟨h1, h2⟩ := hch
      rcases List.mem_cons.mp hq with hqp | hqtail
      · subst hqp
        exact ⟨p2, h1, by simp⟩
      · obtain ⟨d, hd1, hd2⟩ := ih h2 hqtail
        refine ⟨d, hd1, ?_⟩
        rcases List.mem_append.mp hd2 with hin | hin
        · exact List.mem_append.mpr (Or.inl (List.mem_cons_of_mem p hin))
        · exact List.mem_append.mpr (Or.inr hin)

/-- List part of the pending-chain argument.  `P2` is the stack of keys whose
default constructions are suspended (all uncached and provider-free at entry);
every key in the list being resolved is chain-reachable from that stack.
Resolution then adds no pending key to the cache, and if a pending key is
itself in the list, resolution throws. -/
theorem mapConstruct_pending {w : World} {fuel : Nat} {P2 : List Key}
    (HR : ∀ {cx : DIContainer} {qx : Key} {ox : CRes},
      construct w fuel cx qx = some ox →
      (∀ p ∈ P2, mapGet cx.instances p = none ∧ mapGet cx.providers p = none) →
      chainTo w P2 qx →
      (∀ p ∈ P2, mapGet ox.2.1.instances p = none) ∧ (qx ∈ P2 → ∃ e, ox.1 = .error e)) :
    ∀ {ds cc out}, mapConstruct (construct w fuel) cc ds = some out →
      (∀ p ∈ P2, mapGet cc.instances p = none ∧ mapGet cc.providers p = none) →
      (∀ d ∈ ds, chainTo w P2 d) →
      (∀ p ∈ P2, mapGet out.2.1.instances p = none) ∧
        ((∃ d, d ∈ ds ∧ d ∈ P2) → ∃ e, out.1 = .error e) := by
  intro ds
  induction ds with
  | nil =>
    intro cc out h hpend hch
    rw [mapConstruct_nil] at h
    have h2 := Option.some.inj h
    subst h2
    exact ⟨fun p hp => (hpend p hp).1, fun hex => absurd hex (by simp)⟩
  | cons d ds ih =>
    intro cc out h hpend hch
    rcases mapConstruct_cons_elim h with
      ⟨e, ca, evsa, hf, hout⟩ | ⟨v, ca, evsa, e, cb, evsb, hf, hmc, hout⟩
        | ⟨v, ca, evsa, vs, cb, evsb, hf, hmc, hout⟩
    · subst hout
      obtain ⟨H1, H2⟩ := HR hf hpend (hch d (List.mem_cons_self d ds))
      exact ⟨H1, fun _ => ⟨e, rfl⟩⟩
    · obtain ⟨H1, H2⟩ := HR hf hpend (hch d (List.mem_cons_self d ds))
      have hpe : ca.providers = cc.providers := construct_providers_eq hf
      have hpend2 : ∀ p ∈ P2, mapGet ca.instances p = none ∧ mapGet ca.providers p = none := by
        intro p hp
        refine ⟨H1 p hp, ?_⟩
        rw [hpe]
        exact (hpend p hp).2
      obtain ⟨H1b, H2b⟩ := ih hmc hpend2 (fun d2 hd2 => hch d2 (List.mem_cons_of_mem d hd2))
      subst hout
      exact ⟨H1b, fun _ => ⟨e, rfl⟩⟩
    · obtain ⟨H1, H2⟩ := HR hf hpend (hch d (List.mem_cons_self d ds))
      have hpe : ca.providers = cc.providers := construct_providers_eq hf
      have hpend2 : ∀ p ∈ P2, mapGet ca.instances p = none ∧ mapGet ca.providers p = none := by
        intro p hp
        refine ⟨H1 p hp, ?_⟩
        rw [hpe]
        exact (hpend p hp).2
      obtain ⟨H1b, H2b⟩ := ih hmc hpend2 (fun d2 hd2 => hch d2 (List.mem_cons_of_mem d hd2))
      subst hout
      refine ⟨H1b, fun hex => ?_⟩
      obtain ⟨d2, hd2, hd2P⟩ := hex
      rcases List.mem_cons.mp hd2 with rfl | hd2tail
      · obtain ⟨e0, he0⟩ := H2 hd2P
        exact absurd he0 (by simp)
      · obtain ⟨e0, he0⟩ := H2b ⟨d2, hd2tail, hd2P⟩
        exact absurd he0 (by simp)

/-- Pending-chain argument: a terminating `construct` of `q` never caches any
key on its own suspended-ancestor chain, and if `q` is itself pending (a
dependency cycle back to an ancestor) the call necessarily throws.  The chain
condition is what makes the induction go through: a pending key found in the
dependency list is re-entered, stays pending, and so throws or exhausts fuel. -/
theorem construct_pending {w : World} :
    ∀ fuel {cc : DIContainer} {q : Key} {P2 : List Key} {out : CRes},
      construct w fuel cc q = some out →
      (∀ p ∈ P2, mapGet cc.instances p = none ∧ mapGet cc.providers p = none) →
      chainTo w P2 q →
      (∀ p ∈ P2, mapGet out.2.1.instances p = none) ∧ (q ∈ P2 → ∃ e, out.1 = .error e) := by
  intro fuel
  induction fuel with
  | zero => intro cc q P2 out h hpend hch; exact Option.noConfusion h
  | succ fuel ih =>
    intro cc q P2 out h hpend hch
    obtain ⟨r, c1, evs⟩ := out
    rcases construct_succ_cases h with
      ⟨v, hi, hr, hc1, hevs⟩ | ⟨hi, v, hp, hr, hc1, hevs⟩ | ⟨hi, e, hp, hr, hc1, hevs⟩ |
      ⟨hi, hp, hsub⟩
    · refine ⟨fun p hp2 => ?_, fun hq => ?_⟩
      · show mapGet c1.instances p = none
        rw [hc1]
        exact (hpend p hp2).1
      · exact Option.noConfusion ((hpend q hq).1.symm.trans hi)
    · have hqP : q ∉ P2 := fun hq => Option.noConfusion ((hpend q hq).2.symm.trans hp)
      refine ⟨fun p hp2 => ?_, fun hq => absurd hq hqP⟩
      show mapGet c1.instances p = none
      rw [hc1]
      show mapGet (mapSet cc.instances q v) p = none
      have hpq : p ≠ q := fun hpq => hqP (hpq ▸ hp2)
      rw [mapGet_mapSet_ne _ _ _ _ hpq]
      exact (hpend p hp2).1
    · refine ⟨fun p hp2 => ?_, fun _ => ⟨_, hr⟩⟩
      show mapGet c1.instances p = none
      rw [hc1]
      exact (hpend p hp2).1
    · have hpend2 : ∀ p ∈ P2 ++ [q],
          mapGet cc.instances p = none ∧ mapGet cc.providers p = none := by
        intro p hp2
        rcases List.mem_append.mp hp2 with hin | hin
        · exact hpend p hin
        · have hpq : p = q := by simpa using hin
          exact ⟨by rw [hpq]; exact hi, by rw [hpq]; exact hp⟩
      have hch2 : ∀ d ∈ depsList w q, chainTo w (P2 ++ [q]) d :=
        fun d hd => chainTo_snoc hch hd
      have HRx : ∀ {cx : DIContainer} {qx : Key} {ox : CRes},
          construct w fuel cx qx = some ox →
          (∀ p ∈ P2 ++ [q], mapGet cx.instances p = none ∧ mapGet cx.providers p = none) →
          chainTo w (P2 ++ [q]) qx →
          (∀ p ∈ P2 ++ [q], mapGet ox.2.1.instances p = none) ∧
            (qx ∈ P2 ++ [q] → ∃ e, ox.1 = .error e) :=
        fun hx hpx hcx => ih hx hpx hcx
      rcases hsub with ⟨e, cm, evsm, hmc, hr, hc1, hevs⟩ |
        ⟨vs, cm, evsm, e, hmc, hct, hr, hc1, hevs⟩ | ⟨vs, cm, evsm, hmc, hct, hr, hc1, hevs⟩
      · obtain ⟨H1, H2⟩ := mapConstruct_pending HRx hmc hpend2 hch2
        refine ⟨fun p hp2 => ?_, fun _ => ⟨_, hr⟩⟩
        show mapGet c1.instances p = none
        rw [hc1]
        exact H1 p (List.mem_append.mpr (Or.inl hp2))
      · obtain ⟨H1, H2⟩ := mapConstruct_pending HRx hmc hpend2 hch2
        refine ⟨fun p hp2 => ?_, fun _ => ⟨_, hr⟩⟩
        show mapGet c1.instances p = none
        rw [hc1]
        exact H1 p (List.mem_append.mpr (Or.inl hp2))
      · obtain ⟨H1, H2⟩ := mapConstruct_pending HRx hmc hpend2 hch2
        have hnoq : ¬ ∃ d, d ∈ depsList w q ∧ d ∈ P2 ++ [q] := by
          intro hex
          obtain ⟨e0, he0⟩ := H2 hex
          exact absurd he0 (by simp)
        refine ⟨fun p hp2 => ?_, fun hq => absurd (chainTo_self_mem hch hq) hnoq⟩
        have hpq : p ≠ q := fun hpq => hnoq (chainTo_self_mem hch (hpq ▸ hp2))
        show mapGet c1.instances p = none
        rw [hc1]
        show mapGet (mapSet cm.instances q (Value.inst q cm.heapNext)) p = none
        rw [mapGet_mapSet_ne _ _ _ _ hpq]
        exact H1 p (List.mem_append.mpr (Or.inl hp2))

/-- Corollary of the pending-chain argument used everywhere below: while the
dependency list of an uncached, provider-free `key` is being resolved, `key`
itself never enters the instance cache. -/
theorem mapConstruct_no_self {w : World} {fuel : Nat} {cc : DIContainer} {key : Key}
    {out : Except JSError (List Value) × DIContainer × List Event}
    (hi : mapGet cc.instances key = none) (hp : mapGet cc.providers key = none)
    (hmc : mapConstruct (construct w fuel) cc (depsList w key) = some out) :
    mapGet out.2.1.instances key = none := by
  have HRx : ∀ {cx : DIContainer} {qx : Key} {ox : CRes},
      construct w fuel cx qx = some ox →
      (∀ p ∈ [key], mapGet cx.instances p = none ∧ mapGet cx.providers p = none) →
      chainTo w [key] qx →
      (∀ p ∈ [key], mapGet ox.2.1.instances p = none) ∧
        (qx ∈ [key] → ∃ e, ox.1 = .error e) :=
    fun hx hpx hcx => construct_pending fuel hx hpx hcx
  have hpend : ∀ p ∈ [key], mapGet cc.instances p = none ∧ mapGet cc.providers p = none := by
    intro p hp2
    have hpk : p = key := by simpa using hp2
    exact ⟨by rw [hpk]; exact hi, by rw [hpk]; exact hp⟩
  have hch : ∀ d ∈ depsList w key, chainTo w [key] d := by
    intro d hd
    simpa [chainTo] using hd
  exact (mapConstruct_pending HRx hmc hpend hch).1 key (by simp)

/-! Counting lemmas. -/

theorem ctorSuccessCount_append (q : Key) (a b : List Event) :
    ctorSuccessCount q (a ++ b) = ctorSuccessCount q a + ctorSuccessCount q b := by
  induction a with
  | nil => simp [ctorSuccessCount]
  | cons ev a ih =>
    cases ev with
    | ctorInvoked k args ok =>
      cases ok with
      | true => simp [ctorSuccessCount, ih, Nat.add_assoc]
      | false => simp [ctorSuccessCount, ih]
    | providerInvoked k => simp [ctorSuccessCount, ih]

theorem ctorSuccessCount_single_true (q k : Key) (vs : List Value) :
    ctorSuccessCount q [.ctorInvoked k vs true] = if k = q then 1 else 0 := by
  simp [ctorSuccessCount]

theorem ctorSuccessCount_single_false (q k : Key) (vs : List Value) :
    ctorSuccessCount q [.ctorInvoked k vs false] = 0 := by
  simp [ctorSuccessCount]

theorem ctorSuccessCount_single_provider (q k : Key) :
    ctorSuccessCount q [.providerInvoked k] = 0 := by
  simp [ctorSuccessCount]

theorem cachedInd_le_one (c : DIContainer) (q : Key) : cachedInd c q ≤ 1 := by
  unfold cachedInd
  split <;> simp

theorem cachedInd_one {c : DIContainer} {q : Key}
    (h : (mapGet c.instances q).isSome) : cachedInd c q = 1 := by
  simp [cachedInd, h]

theorem cachedInd_zero {c : DIContainer} {q : Key}
    (h : mapGet c.instances q = none) : cachedInd c q = 0 := by
  simp [cachedInd, h]

theorem cachedInd_le_of_mono {c c2 : DIContainer} {q : Key}
    (h : (mapGet c.instances q).isSome → (mapGet c2.instances q).isSome) :
    cachedInd c q ≤ cachedInd c2 q := by
  unfold cachedInd
  by_cases hc : (mapGet c.instances q).isSome
  · simp [hc, h hc]
  · simp [hc]

theorem mapConstruct_providers_eq {w : World} {fuel : Nat} {ds : List Key}
    {cc : DIContainer} {out : Except JSError (List Value) × DIContainer × List Event}
    (h : mapConstruct (construct w fuel) cc ds = some out) :
    out.2.1.providers = cc.providers :=
  mapConstruct_pres (f := construct w fuel) (P := fun a b => b.providers = a.providers)
    (fun h1 h2 => h2.trans h1) (fun _ => rfl) (fun _ _ _ hh => construct_providers_eq hh) h

theorem mapConstruct_cache_mono {w : World} {fuel : Nat} {ds : List Key}
    {cc : DIContainer} {out : Except JSError (List Value) × DIContainer × List Event}
    (h : mapConstruct (construct w fuel) cc ds = some out) :
    ∀ q, (mapGet cc.instances q).isSome → (mapGet out.2.1.instances q).isSome :=
  mapConstruct_pres (f := construct w fuel)
    (P := fun a b => ∀ q, (mapGet a.instances q).isSome → (mapGet b.instances q).isSome)
    (fun h1 h2 q hq => h2 q (h1 q hq)) (fun _ _ hq => hq)
    (fun _ _ _ hh => construct_cache_mono hh) h

/-- List part of the per-call accounting: over the resolution of a
dependency list, (1) keys with a registered provider are never
default-constructed, (2) a successful default construction leaves the key
cached, (3) for each key, successful default constructions plus prior cache
membership never exceed one. -/
theorem mapConstruct_account {w : World} {fuel : Nat}
    (HR : ∀ {cx : DIContainer} {kx : Key} {rx : Except JSError Value}
      {c1x : DIContainer} {evsx : List Event},
      construct w fuel cx kx = some (rx, c1x, evsx) → ∀ q,
        ((mapGet cx.providers q).isSome → ctorSuccessCount q evsx = 0) ∧
        (1 ≤ ctorSuccessCount q evsx → (mapGet c1x.instances q).isSome) ∧
        ctorSuccessCount q evsx + cachedInd cx q ≤ 1) :
    ∀ {ds : List Key} {cc : DIContainer} {res : Except JSError (List Value)}
      {c1 : DIContainer} {evs : List Event},
      mapConstruct (construct w fuel) cc ds = some (res, c1, evs) → ∀ q,
        ((mapGet cc.providers q).isSome → ctorSuccessCount q evs = 0) ∧
        (1 ≤ ctorSuccessCount q evs → (mapGet c1.instances q).isSome) ∧
        ctorSuccessCount q evs + cachedInd cc q ≤ 1 := by
  intro ds
  induction ds with
  | nil =>
    intro cc res c1 evs h q
    rw [mapConstruct_nil] at h
    obtain ⟨h1, h2, h3⟩ := triple_eq (Option.some.inj h)
    refine ⟨fun _ => ?_, fun hcnt => ?_, ?_⟩
    · rw [← h3]; simp [ctorSuccessCount]
    · rw [← h3] at hcnt; simp [ctorSuccessCount] at hcnt
    · rw [← h3]
      simpa [ctorSuccessCount] using cachedInd_le_one cc q
  | cons d ds ih =>
    intro cc res c1 evs h q
    rcases mapConstruct_cons_elim h with
      ⟨e, ca, evsa, hf, hout⟩ | ⟨v, ca, evsa, e, cb, evsb, hf, hmc, hout⟩
        | ⟨v, ca, evsa, vs, cb, evsb, hf, hmc, hout⟩
    · obtain ⟨h1, h2, h3⟩ := triple_eq hout
      obtain ⟨A1, A2, A3⟩ := HR hf q
      refine ⟨fun hpv => ?_, fun hcnt => ?_, ?_⟩
      · rw [h3]; exact A1 hpv
      · rw [h3] at hcnt; rw [h2]; exact A2 hcnt
      · rw [h3]; exact A3
    · obtain ⟨h1, h2, h3⟩ := triple_eq hout
      obtain ⟨A1h, A2h, A3h⟩ := HR hf q
      obtain ⟨A1t, A2t, A3t⟩ := ih hmc q
      have hpe : ca.providers = cc.providers := construct_providers_eq hf
      have hmono1 := construct_cache_mono hf
      have hmono2 := mapConstruct_cache_mono hmc
      have hind : cachedInd cc q ≤ cachedInd ca q := cachedInd_le_of_mono (hmono1 q)
      refine ⟨fun hpv => ?_, fun hcnt => ?_, ?_⟩
      · rw [h3, ctorSuccessCount_append, A1h hpv,
          A1t (by rw [hpe]; exact hpv)]
      · rw [h3, ctorSuccessCount_append] at hcnt
        rw [h2]
        rcases Nat.eq_zero_or_pos (ctorSuccessCount q evsb) with hz | hpos
        · rw [hz, Nat.add_zero] at hcnt
          exact hmono2 q (A2h hcnt)
        · exact A2t hpos
      · rw [h3, ctorSuccessCount_append]
        rcases Nat.eq_zero_or_pos (ctorSuccessCount q evsa) with hz | hpos
        · rw [hz]
          have := cachedInd_le_one ca q
          omega
        · have hca : cachedInd ca q = 1 := cachedInd_one (A2h hpos)
          rw [hca] at A3t
          omega
    · obtain ⟨h1, h2, h3⟩ := triple_eq hout
      obtain ⟨A1h, A2h, A3h⟩ := HR hf q
      obtain ⟨A1t, A2t, A3t⟩ := ih hmc q
      have hpe : ca.providers = cc.providers := construct_providers_eq hf
      have hmono1 := construct_cache_mono hf
      have hmono2 := mapConstruct_cache_mono hmc
      have hind : cachedInd cc q ≤ cachedInd ca q := cachedInd_le_of_mono (hmono1 q)
      refine ⟨fun hpv => ?_, fun hcnt => ?_, ?_⟩
      · rw [h3, ctorSuccessCount_append, A1h hpv,
          A1t (by rw [hpe]; exact hpv)]
      · rw [h3, ctorSuccessCount_append] at hcnt
        rw [h2]
        rcases Nat.eq_zero_or_pos (ctorSuccessCount q evsb) with hz | hpos
        · rw [hz, Nat.add_zero] at hcnt
          exact hmono2 q (A2h hcnt)
        · exact A2t hpos
      · rw [h3, ctorSuccessCount_append]
        rcases Nat.eq_zero_or_pos (ctorSuccessCount q evsa) with hz | hpos
        · rw [hz]
          have := cachedInd_le_one ca q
          omega
        · have hca : cachedInd ca q = 1 := cachedInd_one (A2h hpos)
          rw [hca] at A3t
          omega

/-- Per-call accounting for `construct`: (1) a key with a registered provider
is never default-constructed during the call, (2) a key successfully
default-constructed during the call is cached afterwards, (3) successful
default constructions of a key during the call plus its prior cache
membership never exceed one. -/
theorem construct_account {w : World} :
    ∀ fuel {cc : DIContainer} {k : Key} {r : Except JSError Value}
      {c1 : DIContainer} {evs : List Event},
      construct w fuel cc k = some (r, c1, evs) → ∀ q,
        ((mapGet cc.providers q).isSome → ctorSuccessCount q evs = 0) ∧
        (1 ≤ ctorSuccessCount q evs → (mapGet c1.instances q).isSome) ∧
        ctorSuccessCount q evs + cachedInd cc q ≤ 1 := by
  intro fuel
  induction fuel with
  | zero => intro cc k r c1 evs h q; exact Option.noConfusion h
  | succ fuel ih =>
    intro cc k r c1 evs h q
    rcases construct_succ_cases h with
      ⟨v, hi, hr, hc1, hevs⟩ | ⟨hi, v, hp, hr, hc1, hevs⟩ | ⟨hi, e, hp, hr, hc1, hevs⟩ |
      ⟨hi, hp, hsub⟩
    · refine ⟨fun _ => ?_, fun hcnt => ?_, ?_⟩
      · rw [hevs]; simp [ctorSuccessCount]
      · rw [hevs] at hcnt; simp [ctorSuccessCount] at hcnt
      · rw [hevs]
        simpa [ctorSuccessCount] using cachedInd_le_one cc q
    · refine ⟨fun _ => ?_, fun hcnt => ?_, ?_⟩
      · rw [hevs]; simp [ctorSuccessCount]
      · rw [hevs] at hcnt; simp [ctorSuccessCount] at hcnt
      · rw [hevs]
        simpa [ctorSuccessCount] using cachedInd_le_one cc q
    · refine ⟨fun _ => ?_, fun hcnt => ?_, ?_⟩
      · rw [hevs]; simp [ctorSuccessCount]
      · rw [hevs] at hcnt; simp [ctorSuccessCount] at hcnt
      · rw [hevs]
        simpa [ctorSuccessCount] using cachedInd_le_one cc q
    · rcases hsub with ⟨e, cm, evsm, hmc, hr, hc1, hevs⟩ |
        ⟨vs, cm, evsm, e, hmc, hct, hr, hc1, hevs⟩ | ⟨vs, cm, evsm, hmc, hct, hr, hc1, hevs⟩
      · obtain ⟨A1, A2, A3⟩ := mapConstruct_account ih hmc q
        refine ⟨fun hpv => ?_, fun hcnt => ?_, ?_⟩
        · rw [hevs]; exact A1 hpv
        · rw [hevs] at hcnt; rw [hc1]; exact A2 hcnt
        · rw [hevs]; exact A3
      · obtain ⟨A1, A2, A3⟩ := mapConstruct_account ih hmc q
        refine ⟨fun hpv => ?_, fun hcnt => ?_, ?_⟩
        · rw [hevs, ctorSuccessCount_append, ctorSuccessCount_single_false, A1 hpv]
        · rw [hevs, ctorSuccessCount_append, ctorSuccessCount_single_false,
            Nat.add_zero] at hcnt
          rw [hc1]
          exact A2 hcnt
        · rw [hevs, ctorSuccessCount_append, ctorSuccessCount_single_false,
            Nat.add_zero]
          exact A3
      · obtain ⟨A1, A2, A3⟩ := mapConstruct_account ih hmc q
        have hself : mapGet cm.instances k = none := mapConstruct_no_self hi hp hmc
        by_cases hkq : k = q
        · -- counting the constructed key itself
          have hz : ctorSuccessCount q evsm = 0 := by
            by_contra hne
            have hs := A2 (Nat.one_le_iff_ne_zero.mpr hne)
            rw [hkq] at hself
            rw [hself] at hs
            simp at hs
          refine ⟨fun hpv => ?_, fun _ => ?_, ?_⟩
          · rw [hkq] at hp
            rw [hp] at hpv
            simp at hpv
          · rw [hc1]
            show (mapGet (mapSet cm.instances k (Value.inst k cm.heapNext)) q).isSome
            rw [← hkq]
            rw [mapGet_mapSet_self]
            simp
          · rw [hevs, ctorSuccessCount_append, ctorSuccessCount_single_true, hz,
              if_pos hkq, cachedInd_zero (by rw [← hkq]; exact hi)]
        · refine ⟨fun hpv => ?_, fun hcnt => ?_, ?_⟩
          · rw [hevs, ctorSuccessCount_append, ctorSuccessCount_single_true,
              if_neg hkq, A1 hpv]
          · rw [hevs, ctorSuccessCount_append, ctorSuccessCount_single_true,
              if_neg hkq, Nat.add_zero] at hcnt
            rw [hc1]
            show (mapGet (mapSet cm.instances k (Value.inst k cm.heapNext)) q).isSome
            exact mapGet_mapSet_isSome _ _ _ _ (A2 hcnt)
          · rw [hevs, ctorSuccessCount_append, ctorSuccessCount_single_true,
              if_neg hkq, Nat.add_zero]
            exact A3

theorem isSome_of_cachedInd {c : DIContainer} {q : Key}
    (h : 1 ≤ cachedInd c q) : (mapGet c.instances q).isSome := by
  unfold cachedInd at h
  by_cases hc : (mapGet c.instances q).isSome
  · exact hc
  · simp [hc] at h

theorem runOps_construct_elim {w : World} {fuel : Nat} {k : Key} {ops : List Op}
    {cc : DIContainer} {out : DIContainer × List Event}
    (h : runOps w cc (Op.constructOp fuel k :: ops) = some out) :
    ∃ r ca evsa cb evsb, construct w fuel cc k = some (r, ca, evsa) ∧
      runOps w ca ops = some (cb, evsb) ∧ out = (cb, evsa ++ evsb) := by
  simp only [runOps] at h
  split at h
  · exact Option.noConfusion h
  · rename_i r ca evsa hcon
    split at h
    · exact Option.noConfusion h
    · rename_i cb evsb hops
      exact ⟨r, ca, evsa, cb, evsb, hcon, hops, (Option.some.inj h).symm⟩

/-- Lifetime accounting: over any operation sequence, for each key the number
of successful default constructions plus prior cache membership stays at most
one, and a successfully default-constructed key stays cached. -/
theorem runOps_account {w : World} :
    ∀ {ops : List Op} {cc c1 : DIContainer} {evs : List Event},
      runOps w cc ops = some (c1, evs) → ∀ q,
        (1 ≤ ctorSuccessCount q evs → (mapGet c1.instances q).isSome) ∧
        ctorSuccessCount q evs + cachedInd cc q ≤ 1 ∧
        cachedInd cc q ≤ cachedInd c1 q := by
  intro ops
  induction ops with
  | nil =>
    intro cc c1 evs h q
    obtain ⟨h1, h2⟩ := Prod.mk.injEq .. ▸ Option.some.inj h
    refine ⟨fun hcnt => ?_, ?_, ?_⟩
    · rw [← h2] at hcnt; simp [ctorSuccessCount] at hcnt
    · rw [← h2]
      simpa [ctorSuccessCount] using cachedInd_le_one cc q
    · rw [h1]
  | cons op ops ih =>
    intro cc c1 evs h q
    cases op with
    | addOp k v =>
      have h2 : runOps w (cc.add k v) ops = some (c1, evs) := h
      obtain ⟨B1, B2, B3⟩ := ih h2 q
      have hm : cachedInd cc q ≤ cachedInd (cc.add k v) q :=
        cachedInd_le_of_mono (fun hs => mapGet_mapSet_isSome _ _ _ _ hs)
      exact ⟨B1, by omega, by omega⟩
    | provideOp k p =>
      have h2 : runOps w (cc.provide k p) ops = some (c1, evs) := h
      obtain ⟨B1, B2, B3⟩ := ih h2 q
      exact ⟨B1, B2, B3⟩
    | constructOp fuel k =>
      obtain ⟨r, ca, evsa, cb, evsb, hcon, hops, hout⟩ := runOps_construct_elim h
      obtain ⟨h1, h2⟩ := Prod.mk.injEq .. ▸ hout
      obtain ⟨A1, A2, A3⟩ := construct_account fuel hcon q
      obtain ⟨B1, B2, B3⟩ := ih hops q
      have hmA : cachedInd cc q ≤ cachedInd ca q :=
        cachedInd_le_of_mono (construct_cache_mono hcon q)
      refine ⟨fun hcnt => ?_, ?_, ?_⟩
      · rw [h2, ctorSuccessCount_append] at hcnt
        rw [h1]
        rcases Nat.eq_zero_or_pos (ctorSuccessCount q evsb) with hz | hpos
        · rw [hz, Nat.add_zero] at hcnt
          have hca : cachedInd ca q = 1 := cachedInd_one (A2 hcnt)
          exact isSome_of_cachedInd (by omega)
        · exact B1 hpos
      · rw [h2, ctorSuccessCount_append]
        rcases Nat.eq_zero_or_pos (ctorSuccessCount q evsa) with hz | hpos
        · rw [hz]
          have := cachedInd_le_one ca q
          omega
        · have hca : cachedInd ca q = 1 := cachedInd_one (A2 hpos)
          rw [hca] at B2
          omega
      · rw [h1]
        omega

/-- List part of the provider-value invariant: while a provider returning `v`
is registered for `k` and the cache holds nothing else for `k`, resolving a
dependency list preserves that state, and every position of the list holding
`k` resolves to exactly `v`. -/
theorem mapConstruct_pval {w : World} {k : Key} {v : Value} {fuel : Nat}
    (HR : ∀ {cx : DIContainer} {k2 : Key} {ox : CRes},
      construct w fuel cx k2 = some ox →
      mapGet cx.providers k = some (.ok v) →
      (mapGet cx.instances k = none ∨ mapGet cx.instances k = some v) →
      (mapGet ox.2.1.providers k = some (.ok v) ∧
        (mapGet ox.2.1.instances k = none ∨ mapGet ox.2.1.instances k = some v)) ∧
      (k2 = k → ∀ u, ox.1 = .ok u → u = v)) :
    ∀ {ds : List Key} {cc : DIContainer}
      {out : Except JSError (List Value) × DIContainer × List Event},
      mapConstruct (construct w fuel) cc ds = some out →
      mapGet cc.providers k = some (.ok v) →
      (mapGet cc.instances k = none ∨ mapGet cc.instances k = some v) →
      (mapGet out.2.1.providers k = some (.ok v) ∧
        (mapGet out.2.1.instances k = none ∨ mapGet out.2.1.instances k = some v)) ∧
      (∀ vs, out.1 = .ok vs → vs.length = ds.length ∧
        ∀ i (h1 : i < ds.length) (h2 : i < vs.length),
          ds.get ⟨i, h1⟩ = k → vs.get ⟨i, h2⟩ = v) := by
  intro ds
  induction ds with
  | nil =>
    intro cc out h hpv hiv
    rw [mapConstruct_nil] at h
    have h2 := Option.some.inj h
    subst h2
    refine ⟨⟨hpv, hiv⟩, fun vs hvs => ?_⟩
    have hvs2 : ([] : List Value) = vs := by
      simpa using hvs
    subst hvs2
    exact ⟨rfl, fun i h1 _ _ => absurd h1 (by simp)⟩
  | cons d ds ih =>
    intro cc out h hpv hiv
    rcases mapConstruct_cons_elim h with
      ⟨e, ca, evsa, hf, hout⟩ | ⟨v1, ca, evsa, e, cb, evsb, hf, hmc, hout⟩
        | ⟨v1, ca, evsa, vs2, cb, evsb, hf, hmc, hout⟩
    · subst hout
      exact ⟨(HR hf hpv hiv).1, fun vs hvs => absurd hvs (by simp)⟩
    · subst hout
      obtain ⟨hInvA, _⟩ := HR hf hpv hiv
      exact ⟨(ih hmc hInvA.1 hInvA.2).1, fun vs hvs => absurd hvs (by simp)⟩
    · subst hout
      obtain ⟨hInvA, hResA⟩ := HR hf hpv hiv
      obtain ⟨hInvB, hPtB⟩ := ih hmc hInvA.1 hInvA.2
      refine ⟨hInvB, fun vs hvs => ?_⟩
      have hvs2 : v1 :: vs2 = vs := by
        simpa using hvs
      subst hvs2
      obtain ⟨hlen, hpt⟩ := hPtB vs2 rfl
      refine ⟨by simp [hlen], fun i h1 h2 hdk => ?_⟩
      cases i with
      | zero =>
        have hd : d = k := by simpa using hdk
        have : v1 = v := hResA hd v1 rfl
        simpa using this
      | succ i =>
        have h1b : i < ds.length := by simpa using h1
        have h2b : i < vs2.length := by simpa using h2
        have hdk2 : ds.get ⟨i, h1b⟩ = k := by simpa using hdk
        have := hpt i h1b h2b hdk2
        simpa using this

/-- Provider-value invariant for a single call: a provider returning `v`
registered for `k` stays registered, the cache entry for `k` stays absent or
equal to `v`, and whenever the call resolves `k` itself, the value produced
is `v`. -/
theorem construct_pval {w : World} {k : Key} {v : Value} :
    ∀ fuel {cc : DIContainer} {k2 : Key} {out : CRes},
      construct w fuel cc k2 = some out →
      mapGet cc.providers k = some (.ok v) →
      (mapGet cc.instances k = none ∨ mapGet cc.instances k = some v) →
      (mapGet out.2.1.providers k = some (.ok v) ∧
        (mapGet out.2.1.instances k = none ∨ mapGet out.2.1.instances k = some v)) ∧
      (k2 = k → ∀ u, out.1 = .ok u → u = v) := by
  intro fuel
  induction fuel with
  | zero => intro cc k2 out h _ _; exact Option.noConfusion h
  | succ fuel ih =>
    intro cc k2 out h hpv hiv
    obtain ⟨r, c1, evs⟩ := out
    rcases construct_succ_cases h with
      ⟨v2, hi, hr, hc1, hevs⟩ | ⟨hi, v2, hp, hr, hc1, hevs⟩ | ⟨hi, e, hp, hr, hc1, hevs⟩ |
      ⟨hi, hp, hsub⟩
    · constructor
      · rw [hc1]
        exact ⟨hpv, hiv⟩
      · intro hk2 u hu
        rw [hr] at hu
        have hv2u : v2 = u := by simpa using hu
        rw [hk2] at hi
        rcases hiv with hnone | hsome
        · rw [hnone] at hi; exact Option.noConfusion hi
        · rw [hsome] at hi
          have : v = v2 := by simpa using hi
          rw [← hv2u, ← this]
    · by_cases hk2 : k2 = k
      · have hv2 : v2 = v := by
          rw [hk2] at hp
          rw [hpv] at hp
          simpa using hp.symm
        constructor
        · rw [hc1, hk2, hv2]
          refine ⟨hpv, Or.inr ?_⟩
          show mapGet (mapSet cc.instances k v) k = some v
          exact mapGet_mapSet_self _ _ _
        · intro _ u hu
          rw [hr] at hu
          have : v2 = u := by simpa using hu
          rw [← this, hv2]
      · constructor
        · rw [hc1]
          refine ⟨hpv, ?_⟩
          show mapGet (mapSet cc.instances k2 v2) k = none ∨
            mapGet (mapSet cc.instances k2 v2) k = some v
          rw [mapGet_mapSet_ne _ _ _ _ (fun hh => hk2 hh.symm)]
          exact hiv
        · intro hk2b
          exact absurd hk2b hk2
    · constructor
      · rw [hc1]
        exact ⟨hpv, hiv⟩
      · intro _ u hu
        rw [hr] at hu
        exact absurd hu (by simp)
    · have hk2 : k2 ≠ k := by
        intro hk2
        rw [hk2] at hp
        rw [hpv] at hp
        exact Option.noConfusion hp
      rcases hsub with ⟨e, cm, evsm, hmc, hr, hc1, hevs⟩ |
        ⟨vs, cm, evsm, e, hmc, hct, hr, hc1, hevs⟩ | ⟨vs, cm, evsm, hmc, hct, hr, hc1, hevs⟩
      · obtain ⟨hInv, _⟩ := mapConstruct_pval ih hmc hpv hiv
        constructor
        · rw [hc1]; exact hInv
        · intro hk2b; exact absurd hk2b hk2
      · obtain ⟨hInv, _⟩ := mapConstruct_pval ih hmc hpv hiv
        constructor
        · rw [hc1]; exact hInv
        · intro hk2b; exact absurd hk2b hk2
      · obtain ⟨hInv, _⟩ := mapConstruct_pval ih hmc hpv hiv
        constructor
        · rw [hc1]
          refine ⟨hInv.1, ?_⟩
          show mapGet (mapSet cm.instances k2 (Value.inst k2 cm.heapNext)) k = none ∨
            mapGet (mapSet cm.instances k2 (Value.inst k2 cm.heapNext)) k = some v
          rw [mapGet_mapSet_ne _ _ _ _ (fun hh => hk2 hh.symm)]
          exact hInv.2
        · intro hk2b; exact absurd hk2b hk2

/-- Helper: first resolution of an uncached key with a succeeding provider. -/
theorem provider_first_call {w : World} {fuel : Nat} {c : DIContainer} {k : Key}
    {v : Value} (h : mapGet c.instances k = none)
    (hp : mapGet c.providers k = some (.ok v)) :
    construct w (fuel + 1) c k = some (.ok v, c.add k v, [.providerInvoked k]) := by
  simp [construct, constructBody, h, hp, DIContainer.constructViaProvider]

/-- Helper: repeated calls on a cached key change nothing and invoke nothing. -/
theorem constructN_cached {w : World} {fuel : Nat} {c : DIContainer} {k : Key}
    {v : Value} (h : mapGet c.instances k = some v) :
    ∀ n, constructN w (fuel + 1) c k n = some (c, []) := by
  intro n
  induction n with
  | zero => rfl
  | succ n ih =>
    show (match construct w (fuel + 1) c k with
      | none => none
      | some (_, c2, evs) =>
        match constructN w (fuel + 1) c2 k n with
        | none => none
        | some (c3, evs2) => some (c3, evs ++ evs2)) = some (c, [])
    rw [construct_cached h]
    show (match constructN w (fuel + 1) c k n with
      | none => none
      | some (c3, evs2) => some (c3, ([] : List Event) ++ evs2)) = some (c, [])
    rw [ih]
    rfl

/-- C1: singleton caching.  For a key with an empty or absent declared
dependency list whose constructor succeeds, `construct` on a fresh container
returns a newly allocated instance (its heap serial is the allocation counter
at call time) after exactly one constructor invocation, and a second
`construct` on the resulting container returns the identity-same instance
with no invocation at all and no state change. -/
theorem c1_singleton_caching (w : World) (k : Key) (hp f1 f2 : Nat)
    (hdeps : w.dependencies k = none ∨ w.dependencies k = some [])
    (hctor : w.ctorThrows k [] = none) :
    ∃ c1, construct w (f1 + 1) (DIContainer.empty hp) k =
        some (.ok (Value.inst k hp), c1, [.ctorInvoked k [] true]) ∧
      construct w (f2 + 1) c1 k = some (.ok (Value.inst k hp), c1, []) := by
  refine ⟨(DIContainer.empty (hp + 1)).add k (Value.inst k hp), ?_, ?_⟩
  · rcases hdeps with hd | hd <;>
      simp [construct, constructBody, constructViaDependencies, newInstance, hd,
        hctor, DIContainer.empty, DIContainer.add, mapGet, mapConstruct]
  · exact construct_cached (mapGet_mapSet_self _ _ _)

theorem c1_singleton_caching_witness :
    ∃ c1, construct plainWorld 1 (DIContainer.empty 0) 0 =
        some (.ok (Value.inst 0 0), c1, [.ctorInvoked 0 [] true]) ∧
      construct plainWorld 1 c1 0 = some (.ok (Value.inst 0 0), c1, []) :=
  c1_singleton_caching plainWorld 0 0 0 0 (Or.inl rfl) rfl

/-- C2: resolution priority, cache first.  `add` (the code name of register)
followed immediately by `construct` of the same key returns the registered
value itself, with an empty invocation trace (no provider, no constructor)
and a completely unchanged container, regardless of anything else registered
for the key, including a provider. -/
theorem c2_register_then_construct (w : World) (fuel : Nat) (c : DIContainer)
    (k : Key) (v : Value) :
    construct w (fuel + 1) (c.add k v) k = some (.ok v, c.add k v, []) :=
  construct_cached (mapGet_mapSet_self _ _ _)

/-- C7: error message formatting of `ConstructionError`.  The key reference
is the literal `null` or `undefined` for an absent key, the display name when
the `name` property is defined, and the generic string representation
otherwise (for example `[object Object]` for a plain object, and the
symbolic description for a symbol), prefixed by `Error constructing `. -/
theorem c7_error_message_formatting :
    constructionMessage .jsnull = "Error constructing null" ∧
    constructionMessage .jsundefined = "Error constructing undefined" ∧
    (∀ n, constructionMessage (.withName n) = "Error constructing " ++ n) ∧
    (∀ s, constructionMessage (.noName s) = "Error constructing " ++ s) ∧
    (∀ d, constructionMessage (.symbol d) =
      "Error constructing " ++ ("Symbol(" ++ d ++ ")")) ∧
    constructionMessage (.noName "[object Object]") =
      "Error constructing [object Object]" ∧
    constructionMessage (.symbol "test") = "Error constructing Symbol(test)" :=
  ⟨rfl, rfl, fun _ => rfl, fun _ => rfl, fun _ => rfl, rfl, rfl⟩

/-- C10: a provider returning `undefined` has its result cached.  The first
`construct` stores `undefined` under the key and returns it; the cache then
has an entry whose value is `undefined` (distinguished from a missing
entry), and every later `construct` returns `undefined` from the cache
without invoking the provider again. -/
theorem c10_undefined_provider_cached (w : World) (f1 f2 : Nat) (c : DIContainer)
    (k : Key) (hmiss : mapGet c.instances k = none)
    (hprov : mapGet c.providers k = some (.ok .undef)) :
    construct w (f1 + 1) c k =
      some (.ok .undef, c.add k .undef, [.providerInvoked k]) ∧
    mapGet (c.add k Value.undef).instances k = some Value.undef ∧
    construct w (f2 + 1) (c.add k .undef) k =
      some (.ok .undef, c.add k .undef, []) :=
  ⟨provider_first_call hmiss hprov, mapGet_mapSet_self _ _ _,
    construct_cached (mapGet_mapSet_self _ _ _)⟩

theorem c10_undefined_provider_cached_witness :
    construct plainWorld 1 ((DIContainer.empty 0).provide 0 (.ok .undef)) 0 =
      some (.ok .undef, ((DIContainer.empty 0).provide 0 (.ok .undef)).add 0 .undef,
        [.providerInvoked 0]) ∧
    mapGet ((((DIContainer.empty 0).provide 0 (.ok .undef))).add 0
      Value.undef).instances 0 = some Value.undef ∧
    construct plainWorld 1 (((DIContainer.empty 0).provide 0 (.ok .undef)).add 0 .undef) 0 =
      some (.ok .undef, ((DIContainer.empty 0).provide 0 (.ok .undef)).add 0 .undef, []) :=
  c10_undefined_provider_cached plainWorld 0 0 _ 0 (by decide) (by decide)

/-- C3: dependency order.  For an uncached, provider-free key whose
`dependencies` method returns `ds`, `construct` resolves `ds` via the
recursive `construct` (the same resolution rules) through `mapConstruct`,
which processes the list strictly left to right threading the state, and the
constructor is invoked with the resolved values as its positional argument
list in that same order; the diamond example makes the order observable in
the trace and in the argument lists. -/
theorem c3_dependency_order :
    (∀ (w : World) (fuel : Nat) (c : DIContainer) (k : Key) (ds : List Key)
        (r : Except JSError Value) (c1 : DIContainer) (evs : List Event),
      mapGet c.instances k = none → mapGet c.providers k = none →
      w.dependencies k = some ds →
      construct w (fuel + 1) c k = some (r, c1, evs) →
      (∃ e cm evsm, mapConstruct (construct w fuel) c ds = some (.error e, cm, evsm) ∧
        r = .error (.constructionError k e) ∧ c1 = cm ∧ evs = evsm) ∨
      (∃ vs cm evsm e, mapConstruct (construct w fuel) c ds = some (.ok vs, cm, evsm) ∧
        w.ctorThrows k vs = some e ∧ r = .error (.constructionError k e) ∧
        c1 = cm ∧ evs = evsm ++ [.ctorInvoked k vs false]) ∨
      (∃ vs cm evsm, mapConstruct (construct w fuel) c ds = some (.ok vs, cm, evsm) ∧
        w.ctorThrows k vs = none ∧ r = .ok (Value.inst k cm.heapNext) ∧
        c1 = ({ cm with heapNext := cm.heapNext + 1 }).add k (Value.inst k cm.heapNext) ∧
        evs = evsm ++ [.ctorInvoked k vs true])) ∧
    (∀ (f : DIContainer → Key → Option CRes) (c : DIContainer) (d : Key)
        (ds : List Key) (vs : List Value) (c2 : DIContainer) (evs : List Event),
      mapConstruct f c (d :: ds) = some (.ok vs, c2, evs) →
      ∃ v1 ca evsa vs2 evsb, f c d = some (.ok v1, ca, evsa) ∧
        mapConstruct f ca ds = some (.ok vs2, c2, evsb) ∧
        vs = v1 :: vs2 ∧ evs = evsa ++ evsb) ∧
    construct diamondWorld 3 (DIContainer.empty 0) 2 =
      some (.ok (Value.inst 2 2),
        { instances := [(0, Value.inst 0 0), (1, Value.inst 1 1), (2, Value.inst 2 2)],
          providers := [], heapNext := 3 },
        [.ctorInvoked 0 [] true, .ctorInvoked 1 [Value.inst 0 0] true,
          .ctorInvoked 2 [Value.inst 0 0, Value.inst 1 1] true]) := by
  refine ⟨?_, ?_, by decide⟩
  · intro w fuel c k ds r c1 evs h1 h2 hdep h
    rcases construct_succ_cases h with
      ⟨v, hi, hr, hc1, hevs⟩ | ⟨hi, v, hpv, hr, hc1, hevs⟩ | ⟨hi, e, hpv, hr, hc1, hevs⟩ |
      ⟨hi, hpv, hsub⟩
    · exact Option.noConfusion (h1.symm.trans hi)
    · exact Option.noConfusion (h2.symm.trans hpv)
    · exact Option.noConfusion (h2.symm.trans hpv)
    · rw [depsList_some hdep] at hsub
      exact hsub
  · intro f c d ds vs c2 evs h
    rcases mapConstruct_cons_elim h with
      ⟨e, ca, evsa, hf, hout⟩ | ⟨v, ca, evsa, e, cb, evsb, hf, hmc, hout⟩
        | ⟨v, ca, evsa, vs2, cb, evsb, hf, hmc, hout⟩
    · exact absurd (triple_eq hout).1 (by simp)
    · exact absurd (triple_eq hout).1 (by simp)
    · obtain ⟨hv, hcc, hee⟩ := triple_eq hout
      injection hv with hv0
      refine ⟨v, ca, evsa, vs2, evsb, hf, ?_, hv0, hee⟩
      rw [hcc]
      exact hmc

theorem c3_dependency_order_witness :
    (∃ e cm evsm,
      mapConstruct (construct chainWorld 1) (DIContainer.empty 0) [3] =
        some (.error e, cm, evsm) ∧
      (Except.error (JSError.constructionError 2 (.constructionError 3 (.raw 7)))
          : Except JSError Value) = .error (.constructionError 2 e) ∧
      DIContainer.empty 0 = cm ∧ [Event.ctorInvoked 3 [] false] = evsm) ∨
    (∃ vs cm evsm e,
      mapConstruct (construct chainWorld 1) (DIContainer.empty 0) [3] =
        some (.ok vs, cm, evsm) ∧
      chainWorld.ctorThrows 2 vs = some e ∧
      (Except.error (JSError.constructionError 2 (.constructionError 3 (.raw 7)))
          : Except JSError Value) = .error (.constructionError 2 e) ∧
      DIContainer.empty 0 = cm ∧
      [Event.ctorInvoked 3 [] false] = evsm ++ [.ctorInvoked 2 vs false]) ∨
    (∃ vs cm evsm,
      mapConstruct (construct chainWorld 1) (DIContainer.empty 0) [3] =
        some (.ok vs, cm, evsm) ∧
      chainWorld.ctorThrows 2 vs = none ∧
      (Except.error (JSError.constructionError 2 (.constructionError 3 (.raw 7)))
          : Except JSError Value) = .ok (Value.inst 2 cm.heapNext) ∧
      { instances := ([] : List (Key × Value)), providers := [], heapNext := 0 } =
        ({ cm with heapNext := cm.heapNext + 1 }).add 2 (Value.inst 2 cm.heapNext) ∧
      [Event.ctorInvoked 3 [] false] = evsm ++ [.ctorInvoked 2 vs true]) :=
  c3_dependency_order.1 chainWorld 1 (DIContainer.empty 0) 2 [3] _ _ _
    (by decide) (by decide) (by decide) (by decide)

/-- C4: provider semantics.  After `provide(k, fn)` with `fn` returning `v`:
the first `construct(k)` invokes the provider once, stores `v` in the
instance cache, and returns it; over any number of repeated `construct(k)`
calls the total trace holds exactly one provider invocation (later calls are
cache hits); and when `k` occurs at position `i` of the declared dependency
list of another key `p`, a successful `construct(p)` passes `v` as the
`i`-th positional constructor argument of `p`. -/
theorem c4_provider_semantics :
    (∀ (w : World) (fuel : Nat) (c : DIContainer) (k : Key) (v : Value),
      mapGet c.instances k = none →
      construct w (fuel + 1) (c.provide k (.ok v)) k =
        some (.ok v, (c.provide k (.ok v)).add k v, [.providerInvoked k])) ∧
    (∀ (w : World) (fuel : Nat) (c : DIContainer) (k : Key) (v : Value) (n : Nat),
      mapGet c.instances k = none →
      constructN w (fuel + 1) (c.provide k (.ok v)) k (n + 1) =
        some ((c.provide k (.ok v)).add k v, [.providerInvoked k])) ∧
    (∀ (w : World) (fuel : Nat) (c : DIContainer) (p k : Key) (v u : Value)
        (ds : List Key) (c1 : DIContainer) (evs : List Event) (i : Nat)
        (h1 : i < ds.length),
      mapGet c.providers k = some (.ok v) →
      (mapGet c.instances k = none ∨ mapGet c.instances k = some v) →
      mapGet c.instances p = none → mapGet c.providers p = none →
      w.dependencies p = some ds → ds.get ⟨i, h1⟩ = k →
      construct w (fuel + 1) c p = some (.ok u, c1, evs) →
      ∃ vs cm evsm, mapConstruct (construct w fuel) c ds = some (.ok vs, cm, evsm) ∧
        evs = evsm ++ [.ctorInvoked p vs true] ∧
        ∃ h2 : i < vs.length, vs.get ⟨i, h2⟩ = v) := by
  refine ⟨?_, ?_, ?_⟩
  · intro w fuel c k v h
    exact provider_first_call h (mapGet_mapSet_self _ _ _)
  · intro w fuel c k v n h
    have hfst : construct w (fuel + 1) (c.provide k (.ok v)) k =
        some (.ok v, (c.provide k (.ok v)).add k v, [.providerInvoked k]) :=
      provider_first_call h (mapGet_mapSet_self _ _ _)
    show (match construct w (fuel + 1) (c.provide k (.ok v)) k with
      | none => none
      | some (_, c2, evs) =>
        match constructN w (fuel + 1) c2 k n with
        | none => none
        | some (c3, evs2) => some (c3, evs ++ evs2)) =
      some ((c.provide k (.ok v)).add k v, [.providerInvoked k])
    rw [hfst]
    show (match constructN w (fuel + 1) ((c.provide k (.ok v)).add k v) k n with
      | none => none
      | some (c3, evs2) => some (c3, [Event.providerInvoked k] ++ evs2)) =
      some ((c.provide k (.ok v)).add k v, [.providerInvoked k])
    rw [constructN_cached (mapGet_mapSet_self _ _ _) n]
    rfl
  · intro w fuel c p k v u ds c1 evs i h1 hpv hiv hip hpp hdep hik h
    rcases construct_succ_cases h with
      ⟨v2, hi2, hr, hc1, hevs⟩ | ⟨hi2, v2, hp2, hr, hc1, hevs⟩ |
      ⟨hi2, e, hp2, hr, hc1, hevs⟩ | ⟨hi2, hp2, hsub⟩
    · exact Option.noConfusion (hip.symm.trans hi2)
    · exact Option.noConfusion (hpp.symm.trans hp2)
    · exact Option.noConfusion (hpp.symm.trans hp2)
    · rw [depsList_some hdep] at hsub
      rcases hsub with ⟨e, cm, evsm, hmc, hr, hc1, hevs⟩ |
        ⟨vs, cm, evsm, e, hmc, hct, hr, hc1, hevs⟩ | ⟨vs, cm, evsm, hmc, hct, hr, hc1, hevs⟩
      · exact Except.noConfusion hr
      · exact Except.noConfusion hr
      · obtain ⟨hInv, hPt⟩ := mapConstruct_pval (construct_pval fuel) hmc hpv hiv
        obtain ⟨hlen, hpt⟩ := hPt vs rfl
        have h2 : i < vs.length := by rw [hlen]; exact h1
        exact ⟨vs, cm, evsm, hmc, hevs, h2, hpt i h1 h2 hik⟩

theorem c4_provider_semantics_witness :
    constructN plainWorld 1 ((DIContainer.empty 0).provide 0 (.ok (.prim 4))) 0 2 =
      some (((DIContainer.empty 0).provide 0 (.ok (.prim 4))).add 0 (.prim 4),
        [.providerInvoked 0]) :=
  c4_provider_semantics.2.1 plainWorld 0 (DIContainer.empty 0) 0 (.prim 4) 1 (by decide)

/-- C5: at-most-once default construction.  Over any lifetime of a container
created fresh (any sequence of `add`, `provide` and `construct` operations,
whether the `construct` calls return or throw), each key is successfully
default-constructed at most once; in the diamond example, where key 0 is
reached twice (directly from key 2 and through key 1), its constructor runs
once and the second occurrence receives the identical cached instance. -/
theorem c5_at_most_once :
    (∀ (w : World) (ops : List Op) (hp : Nat) (c1 : DIContainer)
        (evs : List Event) (q : Key),
      runOps w (DIContainer.empty hp) ops = some (c1, evs) →
      ctorSuccessCount q evs ≤ 1) ∧
    construct diamondWorld 3 (DIContainer.empty 0) 2 =
      some (.ok (Value.inst 2 2),
        { instances := [(0, Value.inst 0 0), (1, Value.inst 1 1), (2, Value.inst 2 2)],
          providers := [], heapNext := 3 },
        [.ctorInvoked 0 [] true, .ctorInvoked 1 [Value.inst 0 0] true,
          .ctorInvoked 2 [Value.inst 0 0, Value.inst 1 1] true]) := by
  constructor
  · intro w ops hp c1 evs q h
    have hacc := (runOps_account h q).2.1
    have hz : cachedInd (DIContainer.empty hp) q = 0 := cachedInd_zero rfl
    omega
  · decide

theorem c5_at_most_once_witness :
    ctorSuccessCount 0
      [Event.ctorInvoked 0 [] true, Event.ctorInvoked 1 [Value.inst 0 0] true,
        Event.ctorInvoked 2 [Value.inst 0 0, Value.inst 1 1] true] ≤ 1 :=
  c5_at_most_once.1 diamondWorld [Op.constructOp 3 2] 0
    { instances := [(0, Value.inst 0 0), (1, Value.inst 1 1), (2, Value.inst 2 2)],
      providers := [], heapNext := 3 }
    _ 0 (by decide)

/-- C6: nested error wrapping.  Every error result of `construct` for `key`
is exactly a `ConstructionError` naming `key` whose cause is the failure the
body threw, with the states and traces untouched by the wrapping; conversely
every failing body is re-thrown wrapped, so no failure is swallowed or
retried; in the chain example the caller of key 1 sees wrappers naming keys
1, 2 and 3 around the root failure `raw 7`. -/
theorem c6_nested_error_wrapping :
    (∀ (w : World) (fuel : Nat) (c : DIContainer) (k : Key) (e : JSError)
        (c1 : DIContainer) (evs : List Event),
      construct w (fuel + 1) c k = some (.error e, c1, evs) →
      ∃ cause, e = .constructionError k cause ∧
        constructBody w (construct w fuel) c k = some (.error cause, c1, evs)) ∧
    (∀ (w : World) (fuel : Nat) (c : DIContainer) (k : Key) (cause : JSError)
        (c1 : DIContainer) (evs : List Event),
      constructBody w (construct w fuel) c k = some (.error cause, c1, evs) →
      construct w (fuel + 1) c k =
        some (.error (.constructionError k cause), c1, evs)) ∧
    construct chainWorld 4 (DIContainer.empty 0) 1 =
      some (.error (.constructionError 1 (.constructionError 2
          (.constructionError 3 (.raw 7)))),
        DIContainer.empty 0, [.ctorInvoked 3 [] false]) := by
  refine ⟨?_, ?_, by decide⟩
  · intro w fuel c k e c1 evs h
    rcases construct_succ_elim h with ⟨v, c2, evs2, hb, hout⟩ | ⟨e0, c2, evs2, hb, hout⟩
    · exact absurd (triple_eq hout).1 (by simp)
    · obtain ⟨hr, hc, he⟩ := triple_eq hout
      injection hr with hr0
      refine ⟨e0, hr0, ?_⟩
      rw [hc, he]
      exact hb
  · intro w fuel c k cause c1 evs h
    simp [construct, h]

theorem c6_nested_error_wrapping_witness :
    ∃ cause, JSError.constructionError 3 (.raw 7) = .constructionError 3 cause ∧
      constructBody chainWorld (construct chainWorld 0) (DIContainer.empty 0) 3 =
        some (.error cause, DIContainer.empty 0, [.ctorInvoked 3 [] false]) :=
  c6_nested_error_wrapping.1 chainWorld 0 (DIContainer.empty 0) 3 _ _ _ (by decide)

/-- C8: frame properties.  `construct` never changes the provider registry
(whether it returns or throws); `add` changes exactly the instance-cache
entry of its key, leaving the provider registry, the allocation counter and
every other instance entry untouched; `provide` symmetrically changes
exactly the provider entry of its key. -/
theorem c8_frame_properties :
    (∀ (w : World) (fuel : Nat) (c : DIContainer) (k : Key) (out : CRes),
      construct w fuel c k = some out → out.2.1.providers = c.providers) ∧
    (∀ (c : DIContainer) (k : Key) (v : Value),
      (c.add k v).providers = c.providers ∧
      (c.add k v).heapNext = c.heapNext ∧
      mapGet (c.add k v).instances k = some v ∧
      ∀ q, q ≠ k → mapGet (c.add k v).instances q = mapGet c.instances q) ∧
    (∀ (c : DIContainer) (k : Key) (p : Except JSError Value),
      (c.provide k p).instances = c.instances ∧
      (c.provide k p).heapNext = c.heapNext ∧
      mapGet (c.provide k p).providers k = some p ∧
      ∀ q, q ≠ k → mapGet (c.provide k p).providers q = mapGet c.providers q) :=
  ⟨fun _ _ _ _ _ h => construct_providers_eq h,
    fun _ _ _ => ⟨rfl, rfl, mapGet_mapSet_self _ _ _,
      fun _ hq => mapGet_mapSet_ne _ _ _ _ hq⟩,
    fun _ _ _ => ⟨rfl, rfl, mapGet_mapSet_self _ _ _,
      fun _ hq => mapGet_mapSet_ne _ _ _ _ hq⟩⟩

theorem c8_frame_properties_witness :
    ((Except.ok (Value.inst 0 0),
      ({ instances := [(0, Value.inst 0 0)], providers := [], heapNext := 1 }
        : DIContainer),
      [Event.ctorInvoked 0 [] true]) : CRes).2.1.providers =
      (DIContainer.empty 0).providers :=
  c8_frame_properties.1 plainWorld 1 (DIContainer.empty 0) 0 _ (by decide)

/-- C9: no rollback on failure.  A throwing `construct` call leaves the
instance-cache entry of the requested key exactly as it was (in particular
absent when it was absent, so a later call re-attempts construction); every
key successfully default-constructed during the call, including during a
call that then throws, is cached afterwards; and a cached key is served from
the cache unchanged by any later call.  The `partialWorld` example shows a
failed resolution of key 1 that permanently caches its dependency key 2. -/
theorem c9_no_rollback :
    (∀ (w : World) (fuel : Nat) (c : DIContainer) (k : Key) (e : JSError)
        (c1 : DIContainer) (evs : List Event),
      construct w fuel c k = some (.error e, c1, evs) →
      mapGet c1.instances k = mapGet c.instances k) ∧
    (∀ (w : World) (fuel : Nat) (c : DIContainer) (k q : Key)
        (r : Except JSError Value) (c1 : DIContainer) (evs : List Event),
      construct w fuel c k = some (r, c1, evs) →
      1 ≤ ctorSuccessCount q evs → (mapGet c1.instances q).isSome) ∧
    (∀ (w : World) (fuel : Nat) (c : DIContainer) (q : Key) (v : Value),
      mapGet c.instances q = some v →
      construct w (fuel + 1) c q = some (.ok v, c, [])) ∧
    (construct partialWorld 3 (DIContainer.empty 0) 1 =
      some (.error (.constructionError 1 (.constructionError 3 (.raw 9))),
        { instances := [(2, Value.inst 2 0)], providers := [], heapNext := 1 },
        [.ctorInvoked 2 [] true, .ctorInvoked 3 [] false]) ∧
     construct partialWorld 3
        { instances := [(2, Value.inst 2 0)], providers := [], heapNext := 1 } 2 =
      some (.ok (Value.inst 2 0),
        { instances := [(2, Value.inst 2 0)], providers := [], heapNext := 1 }, [])) := by
  refine ⟨?_, ?_, ?_, by decide, by decide⟩
  · intro w fuel c k e c1 evs h
    cases fuel with
    | zero => exact Option.noConfusion h
    | succ fuel =>
      rcases construct_succ_cases h with
        ⟨v, hi, hr, hc1, hevs⟩ | ⟨hi, v, hp2, hr, hc1, hevs⟩ |
        ⟨hi, e2, hp2, hr, hc1, hevs⟩ | ⟨hi, hp2, hsub⟩
      · exact Except.noConfusion hr
      · exact Except.noConfusion hr
      · rw [hc1]
      · rcases hsub with ⟨e2, cm, evsm, hmc, hr, hc1, hevs⟩ |
          ⟨vs, cm, evsm, e2, hmc, hct, hr, hc1, hevs⟩ |
          ⟨vs, cm, evsm, hmc, hct, hr, hc1, hevs⟩
        · rw [hc1, mapConstruct_no_self hi hp2 hmc, hi]
        · rw [hc1, mapConstruct_no_self hi hp2 hmc, hi]
        · exact Except.noConfusion hr
  · intro w fuel c k q r c1 evs h hcnt
    exact (construct_account fuel h q).2.1 hcnt
  · intro w fuel c q v h
    exact construct_cached h

theorem c9_no_rollback_witness :
    mapGet (⟨[(2, Value.inst 2 0)], [], 1⟩ : DIContainer).instances 1 =
      mapGet (DIContainer.empty 0).instances 1 :=
  c9_no_rollback.1 partialWorld 3 (DIContainer.empty 0) 1
    (.constructionError 1 (.constructionError 3 (.raw 9)))
    ⟨[(2, Value.inst 2 0)], [], 1⟩
    [.ctorInvoked 2 [] true, .ctorInvoked 3 [] false] (by decide)
